import Mathlib

/-!
Verification of the `update_data.py` pipeline of the btc-asset-correlation
repository: a two-stage program (fetch daily OHLCV CSVs per symbol, then
aggregate them into a `data.json` document with weekly candles and rolling
Pearson correlations).

Modelling conventions:
* Dates are day numbers `ℕ` with day 0 a Monday, so the Monday-anchored,
  left-labeled, left-closed weekly bucket of day `d` is `d / 7` and its label
  (the date of the bucket's Monday) is `7 * (d / 7)`.  This captures pandas
  `resample('W-MON', label='left', closed='left')` exactly, up to renaming
  calendar dates to day numbers.
* Prices are exact rationals `ℚ`.  A missing value (pandas `NaN` / Python
  `None`) is `Option.none`.  Division by zero cannot occur for positive
  prices; on the junk inputs where Python would produce `inf`, `ℚ` division
  yields the junk value `0` — no claim touches that case.
* `Series.corr` (Pearson) involves a real square root, which has no exact
  rational value; no claim depends on the numeric value of a correlation
  coefficient (only on whether it is NaN/null and on its rounding), so the
  square root is modelled by the rational stand-in `ratSqrt`.  The
  NaN-condition (zero variance of either series over the pairwise-complete
  observations) is modelled exactly.
* `DataFrame.pct_change()` is modelled with `fill_method = None` (the
  pandas ≥ 3 default): the fractional change is `NaN` whenever the current
  or previous value is missing.
* Writing `data.json` is modelled by `generate_json` returning
  `some document`; every abort path of the script (missing BTC CSV, empty
  BTC weekly index, which makes `.max().strftime` raise) returns `none`,
  meaning nothing is written.
-/

namespace BtcCorr

-- The Batteries rational operations are sealed `@[irreducible]`, which
-- blocks elaborator-side evaluation of closed goals about concrete inputs;
-- re-opening them restores it.
attribute [local semireducible] Rat.add Rat.mul Rat.inv Rat.sub

/-! ### Configuration (update_data.py lines 19-33) -/

/-- The `TICKERS` dict: symbol name → external ticker, in insertion order. -/
def TICKERS : List (String × String) :=
  [("BTC", "BTC-USD"), ("SPY", "SPY"), ("QQQ", "QQQ"),
   ("IGV", "IGV"), ("GLD", "GLD"), ("DXY", "DX-Y.NYB")]

/-- The keys of `TICKERS`, in order. -/
def TICKER_NAMES : List String := TICKERS.map Prod.fst

/-- The `CORRELATION_ASSETS` list (line 32). -/
def CORRELATION_ASSETS : List String := ["SPY", "QQQ", "IGV", "GLD", "DXY"]

/-- The `CORRELATION_PERIODS` list (line 33). -/
def CORRELATION_PERIODS : List ℕ := [13, 26, 52]

/-! ### Rounding helpers (`clean` / `clean_corr`, lines 104-112) -/

/-- Python `round` on a rational scaled to an integer: round half to even. -/
def roundHalfEven (v : ℚ) : ℤ :=
  let f := ⌊v⌋
  let r := v - (f : ℚ)
  if r < 1/2 then f
  else if 1/2 < r then f + 1
  else if f % 2 = 0 then f else f + 1

/-- Python `round(v, n)`. -/
def pyRound (n : ℕ) (v : ℚ) : ℚ :=
  ((roundHalfEven (v * (10 : ℚ) ^ n) : ℤ) : ℚ) / (10 : ℚ) ^ n

/-- The helper `clean` (lines 104-107): `None`/NaN becomes `None`, otherwise round to
2 decimal places. -/
def clean (v : Option ℚ) : Option ℚ := v.map (pyRound 2)

/-- The helper `clean_corr` (lines 109-112): `None`/NaN becomes `None`, otherwise round
to 4 decimal places. -/
def clean_corr (v : Option ℚ) : Option ℚ := v.map (pyRound 4)

/-! ### Daily bars and weekly resampling (lines 88-98) -/

/-- One row of a per-symbol CSV: a daily OHLCV bar.  `o`/`hi`/`lo`/`c` are
the Open/High/Low/Close columns, `vol` the Volume column. -/
structure DailyBar where
  date : ℕ
  o : ℚ
  hi : ℚ
  lo : ℚ
  c : ℚ
  vol : ℚ
  deriving DecidableEq, Repr

/-- The Monday-anchored week bucket of a day. -/
def weekOf (d : ℕ) : ℕ := d / 7

/-- The left label (Monday's date) of a week bucket. -/
def weekLabel (w : ℕ) : ℕ := 7 * w

/-- The daily bars falling in week bucket `w`, in input order. -/
def inWeek (w : ℕ) (ds : List DailyBar) : List DailyBar :=
  ds.filter (fun b => weekOf b.date = w)

/-- A weekly OHLCV bar (one row of `btc_weekly`), labelled by its Monday. -/
structure WeeklyBar where
  t : ℕ
  o : ℚ
  hi : ℚ
  lo : ℚ
  c : ℚ
  vol : ℚ
  deriving DecidableEq, Repr

/-- Aggregate one week bucket (the `.agg` dict of line 90-92): `none` for an
empty bucket (such rows are removed by the `.dropna()`), otherwise
open = first, high = max, low = min, close = last, volume = sum. -/
def aggWeek (w : ℕ) (ds : List DailyBar) : Option WeeklyBar :=
  match inWeek w ds with
  | [] => none
  | first :: rest =>
      some { t := weekLabel w
           , o := first.o
           , hi := rest.foldl (fun a b => max a b.hi) first.hi
           , lo := rest.foldl (fun a b => min a b.lo) first.lo
           , c := (rest.getLastD first).c
           , vol := (first :: rest).foldl (fun a b => a + b.vol) 0 }

/-- Weekly resampling `resample('W-MON', label='left', closed='left').agg(...).dropna()`
(lines 90-92): pandas materialises every bucket between the first and last
observation and the `dropna` removes the all-NaN rows of empty buckets, so
the result is one bar per nonempty bucket, in bucket order. -/
def resampleWeekly (ds : List DailyBar) : List WeeklyBar :=
  match ds with
  | [] => []
  | first :: rest =>
      let w0 := weekOf first.date
      let w1 := weekOf ((rest.getLastD first).date)
      (List.range' w0 (w1 - w0 + 1)).filterMap (fun w => aggWeek w ds)

/-- The last close of week bucket `w` (`.resample(...).last()` on the Close
column, line 97): `none` for an empty bucket (removed by `.dropna()`). -/
def lastCloseInWeek (w : ℕ) (ds : List DailyBar) : Option (ℕ × ℚ) :=
  match inWeek w ds with
  | [] => none
  | first :: rest => some (weekLabel w, (rest.getLastD first).c)

/-- The weekly close series of one symbol (line 97). -/
def weeklyCloses (ds : List DailyBar) : List (ℕ × ℚ) :=
  match ds with
  | [] => []
  | first :: rest =>
      let w0 := weekOf first.date
      let w1 := weekOf ((rest.getLastD first).date)
      (List.range' w0 (w1 - w0 + 1)).filterMap (fun w => lastCloseInWeek w ds)

/-! ### Reading the CSVs (lines 74-86) -/

/-- Insert a daily bar into a date-sorted list. -/
def insertByDate (b : DailyBar) : List DailyBar → List DailyBar
  | [] => [b]
  | x :: xs => if b.date ≤ x.date then b :: x :: xs else x :: insertByDate b xs

/-- Sorting `df.sort_values('Date')` (line 81). -/
def sortByDate (ds : List DailyBar) : List DailyBar :=
  ds.foldr insertByDate []

/-- The `data/` directory: per symbol name, the parsed rows of its CSV if
the file exists. -/
abbrev FileSys := String → Option (List DailyBar)

/-- The `dfs` dict (lines 74-82): for each configured symbol whose CSV
exists, its date-sorted rows, in `TICKERS` order. -/
def dfsOf (files : FileSys) : List (String × List DailyBar) :=
  TICKER_NAMES.filterMap (fun n => (files n).map (fun ds => (n, sortByDate ds)))

/-- The symbols available to the aggregation (the columns of `combined`). -/
def colsOf (files : FileSys) : List String := (dfsOf files).map Prod.fst

/-! ### The combined weekly-close table and returns (lines 94-101) -/

/-- One row of a weekly table: a week label and one optional close (or
return) per available symbol, in `colsOf` order. -/
abbrev Row := ℕ × List (Option ℚ)

/-- The weekly close series of every available symbol (lines 95-98). -/
def weeklyClosesOf (files : FileSys) : List (String × List (ℕ × ℚ)) :=
  (dfsOf files).map (fun p => (p.1, weeklyCloses p.2))

/-- Insert a natural number into a sorted list. -/
def insertNat (n : ℕ) : List ℕ → List ℕ
  | [] => [n]
  | x :: xs => if n ≤ x then n :: x :: xs else x :: insertNat n xs

/-- Sort a list of naturals ascending. -/
def sortNat (l : List ℕ) : List ℕ := l.foldr insertNat []

/-- The row index of `pd.DataFrame(weekly_closes)`: the sorted union of the
week labels of all available symbols. -/
def unionLabels (files : FileSys) : List ℕ :=
  sortNat (((weeklyClosesOf files).flatMap (fun p => p.2.map Prod.fst)).dedup)

/-- The table `combined = pd.DataFrame(weekly_closes).dropna(subset=['BTC'])`
(line 100): one row per week label of the union index at which BTC has a
close, holding each symbol's close for that week if any. -/
def combinedTable (files : FileSys) : List Row :=
  (unionLabels files).filterMap (fun t =>
    let row := (weeklyClosesOf files).map (fun p => p.2.lookup t)
    if row[(colsOf files).indexOf "BTC"]?.join.isSome
    then some (t, row) else none)

/-- One cell of `pct_change()` with `fill_method = None`: the fractional
change, `NaN` if the current or previous value is missing. -/
def pctCell (prev cur : Option ℚ) : Option ℚ :=
  match prev, cur with
  | some p, some c => some ((c - p) / p)
  | _, _ => none

/-- The rows of `pct_change()` after the first: each row paired with its
predecessor. -/
def pctAux (prev : Row) : List Row → List Row
  | [] => []
  | cur :: rest => (cur.1, List.zipWith pctCell prev.2 cur.2) :: pctAux cur rest

/-- The change table `combined.pct_change()` (line 101), with `fill_method = None`: the first
row is all-NaN, every later row is the cellwise fractional change from its
predecessor. -/
def pctTable : List Row → List Row
  | [] => []
  | r :: rest => (r.1, r.2.map (fun _ => none)) :: pctAux r rest

/-- The return table `returns = combined.pct_change().dropna()` (line 101): `dropna()` with
default arguments removes every row in which any column is NaN. -/
def returnsTable (files : FileSys) : List Row :=
  (pctTable (combinedTable files)).filter (fun r => r.2.all Option.isSome)

/-! ### Pearson correlation (`Series.corr`, line 135) -/

/-- Sum of a list of rationals. -/
def sumQ (l : List ℚ) : ℚ := l.foldl (· + ·) 0

/-- The pairwise-complete observations of two aligned optional series
(`Series.corr` ignores positions where either value is NaN). -/
def pairObs (xs ys : List (Option ℚ)) : List (ℚ × ℚ) :=
  (List.zip xs ys).filterMap (fun p =>
    match p with
    | (some a, some b) => some (a, b)
    | _ => none)

/-- Rational stand-in for the floating-point square root used inside the
Pearson coefficient: `√(n/d) = √(n·d)/d`.  The numeric value of a
correlation is irrelevant to every claim (only its NaN-ness and its
rounding matter), so a floor square root is used. -/
def ratSqrt (q : ℚ) : ℚ := ((Nat.sqrt (q.num.toNat * q.den) : ℚ)) / (q.den : ℚ)

/-- Pearson `Series.corr` (line 135): NaN (`none`) exactly when either
series has zero variance over the pairwise-complete observations (this
covers fewer than two observations); otherwise the coefficient
`cov / √(varx · vary)`. -/
def pearsonOpt (xs ys : List (Option ℚ)) : Option ℚ :=
  let ps := pairObs xs ys
  let n : ℚ := (ps.length : ℚ)
  let mx := sumQ (ps.map Prod.fst) / n
  let my := sumQ (ps.map Prod.snd) / n
  let vx := sumQ (ps.map (fun p => (p.1 - mx) ^ 2))
  let vy := sumQ (ps.map (fun p => (p.2 - my) ^ 2))
  let cov := sumQ (ps.map (fun p => (p.1 - mx) * (p.2 - my)))
  if vx = 0 ∨ vy = 0 then none
  else some (cov / ratSqrt (vx * vy))

/-! ### The correlation tables (lines 125-142) -/

/-- The slice `returns.iloc[i - period + 1 : i + 1]` (line 133), for `i ≥ period - 1`
(the only positions where it is taken). -/
def windowAt (rows : List Row) (period i : ℕ) : List Row :=
  let lo := i + 1 - period
  (rows.drop lo).take (i + 1 - lo)

/-- The column of symbol `a` in a list of rows (`window[asset]`): `none`
where the symbol has no value, and everywhere if `a` is not a column. -/
def columnOf (cols : List String) (a : String) (rows : List Row) :
    List (Option ℚ) :=
  rows.map (fun r => r.2[cols.indexOf a]?.join)

/-- The value stored for one asset in the correlation entry at position `i`
(lines 131-140): `None` unless the asset is a column of `returns` and
`i ≥ period - 1`; otherwise the cleaned Pearson coefficient of the trailing
window (the `len(window) == period` test, line 134, is part of the code and
kept). -/
def corrCell (cols : List String) (rows : List Row) (period i : ℕ)
    (asset : String) : Option ℚ :=
  if asset ∈ cols ∧ period - 1 ≤ i then
    let w := windowAt rows period i
    if w.length = period then
      clean_corr (pearsonOpt (columnOf cols "BTC" w) (columnOf cols asset w))
    else none
  else none

/-- The entry dict built at position `i` (lines 130-140), without its `'t'`
key: every correlation asset, in order, mapped to its `corrCell` value. -/
def corrEntryAt (cols : List String) (rows : List Row) (period i t : ℕ) :
    ℕ × List (String × Option ℚ) :=
  (t, CORRELATION_ASSETS.map (fun a => (a, corrCell cols rows period i a)))

/-- The week label of row `i` of a table (`returns.index[i]`). -/
def labelAt (rows : List Row) (i : ℕ) : ℕ :=
  (rows[i]?.map Prod.fst).getD 0

/-- The list `corr_list` for one window length (lines 128-141): one entry per row of
`returns`, in order. -/
def corrTableOf (files : FileSys) (period : ℕ) :
    List (ℕ × List (String × Option ℚ)) :=
  let rows := returnsTable files
  (List.range rows.length).map
    (fun i => corrEntryAt (colsOf files) rows period i (labelAt rows i))

/-- The emitted correlation value for `asset` at position `i` of the
`period`-week list: `none` when it is emitted as null (and also when the
position does not exist). -/
def corrValueAt (files : FileSys) (period i : ℕ) (asset : String) :
    Option ℚ :=
  match (corrTableOf files period)[i]? with
  | none => none
  | some e => (e.2.lookup asset).join

/-- The `period`-week correlation series of one asset: the per-entry emitted
value (null = `none`), in order. -/
def corrSeries (files : FileSys) (period : ℕ) (asset : String) :
    List (Option ℚ) :=
  (corrTableOf files period).map (fun e => (e.2.lookup asset).join)

/-! ### JSON values and the output document (lines 114-162) -/

/-- A JSON value as produced by `json.dump` on the output dict. -/
inductive Json where
  | null : Json
  | num (q : ℚ) : Json
  | str (s : String) : Json
  | arr (xs : List Json) : Json
  | obj (kvs : List (String × Json)) : Json

/-- An optional rational serialised into JSON: `None` becomes JSON null. -/
def jsonOfOpt (v : Option ℚ) : Json :=
  match v with
  | none => Json.null
  | some q => Json.num q

/-- Date formatting `dt.strftime('%Y-%m-%d')`: day numbers rendered as date strings;
modelled by decimal rendering, which is likewise injective. -/
def dateStr (d : ℕ) : String := toString d

/-- Key lookup in a JSON object (first match). -/
def Json.getKV (j : Json) (k : String) : Option Json :=
  match j with
  | Json.obj kvs => (kvs.lookup k)
  | _ => none

/-- The top-level keys of a JSON object, in order. -/
def topKeys (j : Json) : List String :=
  match j with
  | Json.obj kvs => kvs.map Prod.fst
  | _ => []

/-- One candle object (lines 116-123): keys `t`,`o`,`h`,`l`,`c`, with the
prices passed through `clean`. -/
def candleJson (b : WeeklyBar) : Json :=
  Json.obj [ ("t", Json.str (dateStr b.t))
           , ("o", jsonOfOpt (clean (some b.o)))
           , ("h", jsonOfOpt (clean (some b.hi)))
           , ("l", jsonOfOpt (clean (some b.lo)))
           , ("c", jsonOfOpt (clean (some b.c))) ]

/-- One correlation entry serialised (lines 130-141): the `'t'` key then one
key per correlation asset. -/
def corrEntryJson (e : ℕ × List (String × Option ℚ)) : Json :=
  Json.obj (("t", Json.str (dateStr e.1)) :: e.2.map (fun p => (p.1, jsonOfOpt p.2)))

/-- The `correlations` object (lines 126-142): stringified window length →
array of entries. -/
def correlationsJson (files : FileSys) : Json :=
  Json.obj (CORRELATION_PERIODS.map (fun p =>
    (toString p, Json.arr ((corrTableOf files p).map corrEntryJson))))

/-- The weekly close-price overlay computed at lines 144-152: per available
correlation asset, the weeks where it has a close, with cleaned values.  It
is built by the script but never placed into the output dict. -/
def pricesOverlay (files : FileSys) : List (String × List (ℕ × Option ℚ)) :=
  CORRELATION_ASSETS.filterMap (fun asset =>
    if asset ∈ colsOf files then
      some (asset,
        (combinedTable files).filterMap (fun r =>
          ((r.2.get? ((colsOf files).indexOf asset)).join).map
            (fun v => (r.1, clean (some v)))))
    else none)

/-- Maximum of a list of labels (`btc_weekly.index.max()`; only used on
nonempty indexes). -/
def listMax (l : List ℕ) : ℕ := l.foldl max 0

/-- The aggregation stage `generate_json` (lines 72-162): `none` models every abort path in which
no JSON is written (missing BTC CSV, line 84-86; empty BTC weekly index, on
which `.max().strftime(...)` raises before the file is opened).  `some`
holds the document written to `data.json`. -/
def generate_json (files : FileSys) : Option Json :=
  match (dfsOf files).lookup "BTC" with
  | none => none
  | some btcds =>
    match resampleWeekly btcds with
    | [] => none
    | b :: rest =>
      some (Json.obj
        [ ("lastUpdated",
            Json.str (dateStr (listMax ((b :: rest).map WeeklyBar.t))))
        , ("btcLatest", jsonOfOpt (clean (some ((rest.getLastD b).c))))
        , ("candles", Json.arr ((b :: rest).map candleJson))
        , ("correlations", correlationsJson files) ])

/-- The aggregation stage as a transition on the stored `data.json` (the
`open(..., 'w')` + `json.dump` of lines 161-162 happen only on the success
path): on abort the previous contents survive unchanged. -/
def runAggregate (prev : Option Json) (files : FileSys) : Option Json :=
  match generate_json files with
  | none => prev
  | some out => some out

/-- The BTC weekly bars computed from the available files (empty when the
BTC CSV is missing). -/
def btcWeeklyOf (files : FileSys) : List WeeklyBar :=
  match (dfsOf files).lookup "BTC" with
  | none => []
  | some btcds => resampleWeekly btcds

/-! ### The fetch stage (`download_data`, lines 36-69) -/

/-- A row of the frame returned by the external data source, already
collapsed to canonical columns; Volume may be missing. -/
structure RawBar where
  date : ℕ
  o : ℚ
  hi : ℚ
  lo : ℚ
  c : ℚ
  vol : Option ℚ
  deriving DecidableEq, Repr

/-- The outcome of the external download for one ticker: a frame of rows
(possibly empty), or an exception from the fetch or the subsequent
transformation. -/
inductive FetchResult where
  | ok (rows : List RawBar)
  | failed
  deriving DecidableEq, Repr

/-- Lines 61-64: the rows written to the symbol's CSV; missing Volume
becomes 0 and Volume is truncated to an integer. -/
def toCsvRows (rows : List RawBar) : List DailyBar :=
  rows.map (fun r =>
    { date := r.date, o := r.o, hi := r.hi, lo := r.lo, c := r.c
    , vol := ((⌊r.vol.getD 0⌋ : ℤ) : ℚ) })

/-- The fetch stage `download_data` (lines 36-69): iterate the configured tickers in order;
an empty frame is skipped (lines 53-55), an exception is caught and logged
(lines 68-69), and in both cases iteration continues; a nonempty frame is
normalised and written as the symbol's CSV (lines 57-65).  The result is
the list of written CSVs, in iteration order. -/
def download_data (fetch : String → FetchResult) : List (String × List DailyBar) :=
  TICKERS.filterMap (fun p =>
    match fetch p.2 with
    | FetchResult.ok rows => if rows.isEmpty then none else some (p.1, toCsvRows rows)
    | FetchResult.failed => none)

/-! ### Checkers used to state the output-document claims -/

/-- Holds iff `q` is an exact multiple of `10⁻ⁿ` (a value "rounded to `n`
decimal places"). -/
def isRoundedTo (n : ℕ) (q : ℚ) : Bool := (q * (10 : ℚ) ^ n).den == 1

/-- A JSON value admissible at a numeric position rounded to `n` places:
null, or a number rounded to `n` decimals — in particular never a string. -/
def roundedJ (n : ℕ) : Json → Bool
  | Json.null => true
  | Json.num q => isRoundedTo n q
  | _ => false

/-- The values of a JSON object except the one at key `skip`. -/
def objVals (skip : String) : Json → List Json
  | Json.obj kvs => kvs.filterMap (fun p => if p.1 = skip then none else some p.2)
  | _ => []

/-- Every price value inside the `candles` array of the output document. -/
def candleNums (out : Json) : List Json :=
  match out.getKV "candles" with
  | some (Json.arr xs) => xs.flatMap (objVals "t")
  | _ => []

/-- Every correlation value inside the `correlations` object of the output
document (all windows, all entries, all assets). -/
def corrNums (out : Json) : List Json :=
  match out.getKV "correlations" with
  | some (Json.obj ws) =>
      ws.flatMap (fun w =>
        match w.2 with
        | Json.arr xs => xs.flatMap (objVals "t")
        | _ => [])
  | _ => []

/-- The key list of every correlation entry of the output document. -/
def corrKeyLists (out : Json) : List (List String) :=
  match out.getKV "correlations" with
  | some (Json.obj ws) =>
      ws.flatMap (fun w =>
        match w.2 with
        | Json.arr xs => xs.map topKeys
        | _ => [])
  | _ => []

/-! ### The return table as the amended C2 describes it -/

/-- Modelled from the amended claim C2's words, for comparison with
`returnsTable`: walking consecutive pairs of rows of the combined table, a
week is kept (with the cellwise fractional change) exactly when every
available asset has a value both in it and in the previous week; the first
row and every row touching a gap are dropped. -/
def specReturns : List Row → List Row
  | [] => []
  | [_] => []
  | p :: c :: rest =>
      (if p.2.all Option.isSome && c.2.all Option.isSome
       then [(c.1, List.zipWith pctCell p.2 c.2)] else []) ++
      specReturns (c :: rest)

/-! ### Concrete inputs used by witnesses and counterexamples -/

/-- A one-day bar with all four prices equal to `p` and zero volume. -/
def bar (d : ℕ) (p : ℚ) : DailyBar :=
  { date := d, o := p, hi := p, lo := p, c := p, vol := 0 }

/-- 14 weekly BTC closes `1,2,…,14` (one bar per week, on Mondays). -/
def btc14 : List DailyBar :=
  (List.range 14).map (fun k => bar (7 * k) ((k : ℚ) + 1))

/-- 14 weekly SPY closes `2,3,…,15` on the same weeks. -/
def spy14 : List DailyBar :=
  (List.range 14).map (fun k => bar (7 * k) ((k : ℚ) + 2))

/-- The scenario of C3: a BTC CSV with 14 weekly closes and one matching
correlation asset. -/
def files14 : FileSys := fun s =>
  if s = "BTC" then some btc14 else if s = "SPY" then some spy14 else none

/-- A data directory where SPY has a gap: BTC has weeks 0,1,2,3 and SPY has
weeks 0,1,3 only. -/
def filesGap : FileSys := fun s =>
  if s = "BTC" then some [bar 0 1, bar 7 2, bar 14 3, bar 21 4]
  else if s = "SPY" then some [bar 0 1, bar 7 2, bar 21 4]
  else none

/-- A data directory holding only the BTC CSV (two weekly bars). -/
def filesBtcOnly : FileSys := fun s =>
  if s = "BTC" then some [bar 0 1, bar 7 2] else none

/-- An empty data directory. -/
def filesEmpty : FileSys := fun _ => none

/-- A three-day series spanning weeks 0 and 2 (week 1 empty). -/
def ds3 : List DailyBar := [bar 0 1, bar 1 2, bar 14 3]

/-- A sample raw row returned by the data source. -/
def rawSample : RawBar := { date := 0, o := 1, hi := 1, lo := 1, c := 1, vol := none }

/-- A fetch outcome in which only BTC and GLD succeed. -/
def fetchPartial : String → FetchResult := fun t =>
  if t = "BTC-USD" then FetchResult.ok [rawSample]
  else if t = "GLD" then FetchResult.ok [rawSample]
  else FetchResult.failed

/-! ### Basic lemmas -/

theorem pyRound_isRounded (n : ℕ) (v : ℚ) : isRoundedTo n (pyRound n v) = true := by
  have h10 : ((10 : ℚ) ^ n) ≠ 0 := by positivity
  simp only [isRoundedTo, pyRound, div_mul_cancel₀ _ h10]
  simp [Rat.den_intCast]

theorem lookup_map_self {α β : Type} [BEq α] [LawfulBEq α]
    (l : List α) (f : α → β) (a : α) :
    (l.map (fun x => (x, f x))).lookup a =
      if a ∈ l then some (f a) else none := by
  induction l with
  | nil => simp
  | cons x xs ih =>
    by_cases hx : x = a
    · subst hx
      simp [List.lookup]
    · have hbeq : (a == x) = false := by simp [Ne.symm hx]
      simp [List.lookup, hbeq, ih, List.mem_cons, Ne.symm hx]

theorem windowAt_length (rows : List Row) (period i : ℕ)
    (hp : period ≤ i + 1) (hi : i < rows.length) :
    (windowAt rows period i).length = period := by
  simp only [windowAt, List.length_take, List.length_drop]
  omega

theorem mem_of_mem_windowAt {rows : List Row} {period i : ℕ} {r : Row}
    (h : r ∈ windowAt rows period i) : r ∈ rows := by
  simp only [windowAt] at h
  exact List.mem_of_mem_drop (List.mem_of_mem_take h)

theorem mem_colsOf {files : FileSys} {a : String} :
    a ∈ colsOf files ↔ a ∈ TICKER_NAMES ∧ (files a).isSome := by
  constructor
  · intro h
    simp only [colsOf, List.mem_map, dfsOf, List.mem_filterMap] at h
    obtain ⟨p, ⟨n, hn, hp⟩, hfst⟩ := h
    rcases hds : files n with _ | ds
    · rw [hds] at hp; simp at hp
    · rw [hds] at hp
      simp only [Option.map_some', Option.some.injEq] at hp
      subst hp
      simp only at hfst
      subst hfst
      exact ⟨hn, by simp [hds]⟩
  · rintro ⟨hn, hs⟩
    rcases hds : files a with _ | ds
    · rw [hds] at hs; simp at hs
    · simp only [colsOf, List.mem_map, dfsOf, List.mem_filterMap]
      exact ⟨(a, sortByDate ds), ⟨a, hn, by rw [hds]; rfl⟩, rfl⟩

theorem combined_row_length {files : FileSys} {r : Row}
    (h : r ∈ combinedTable files) :
    r.2.length = (colsOf files).length := by
  simp only [combinedTable, List.mem_filterMap] at h
  obtain ⟨t, -, hr⟩ := h
  split at hr
  · cases hr
    simp [colsOf, weeklyClosesOf]
  · cases hr

theorem pctAux_row_length {k : ℕ} :
    ∀ (l : List Row) (p : Row), p.2.length = k → (∀ r ∈ l, r.2.length = k) →
      ∀ r ∈ pctAux p l, r.2.length = k := by
  intro l
  induction l with
  | nil => intro p _ _ r hr; simp [pctAux] at hr
  | cons c rest ih =>
    intro p hp hl r hr
    simp only [pctAux, List.mem_cons] at hr
    rcases hr with rfl | hr
    · have hc : c.2.length = k := hl c (by simp)
      simp [List.length_zipWith, hp, hc]
    · exact ih c (hl c (by simp)) (fun x hx => hl x (by simp [hx])) r hr

theorem pctTable_row_length {k : ℕ} {C : List Row}
    (hC : ∀ r ∈ C, r.2.length = k) :
    ∀ r ∈ pctTable C, r.2.length = k := by
  cases C with
  | nil => intro r hr; simp [pctTable] at hr
  | cons x rest =>
    intro r hr
    simp only [pctTable, List.mem_cons] at hr
    rcases hr with rfl | hr
    · simpa using hC x (by simp)
    · exact pctAux_row_length rest x (hC x (by simp))
        (fun y hy => hC y (by simp [hy])) r hr

theorem returns_row_all_some {files : FileSys} {r : Row}
    (h : r ∈ returnsTable files) : r.2.all Option.isSome = true :=
  (List.mem_filter.mp h).2

theorem returns_row_length {files : FileSys} {r : Row}
    (h : r ∈ returnsTable files) :
    r.2.length = (colsOf files).length :=
  pctTable_row_length (fun x hx => combined_row_length hx) r
    (List.mem_filter.mp h).1

theorem columnOf_countP_of_mem_returns {files : FileSys} {asset : String}
    (ha : asset ∈ colsOf files) {w : List Row}
    (hw : ∀ r ∈ w, r ∈ returnsTable files) :
    (columnOf (colsOf files) asset w).countP Option.isSome = w.length := by
  rw [columnOf, List.countP_map, List.countP_eq_length]
  intro r hr
  have hlen : (colsOf files).indexOf asset < r.2.length := by
    rw [returns_row_length (hw r hr)]
    exact List.indexOf_lt_length.mpr ha
  have hcell : r.2[(colsOf files).indexOf asset]? = some r.2[(colsOf files).indexOf asset] :=
    List.getElem?_eq_getElem hlen
  have hsome : (r.2[(colsOf files).indexOf asset]).isSome = true :=
    List.all_eq_true.mp (returns_row_all_some (hw r hr)) _ (List.getElem_mem hlen)
  simpa [Function.comp, hcell, Option.join] using hsome

theorem corrTableOf_getElem? {files : FileSys} {period i : ℕ}
    (hi : i < (returnsTable files).length) :
    (corrTableOf files period)[i]? =
      some (corrEntryAt (colsOf files) (returnsTable files) period i
        (labelAt (returnsTable files) i)) := by
  have h1 : (List.range (returnsTable files).length)[i]? = some i := by
    simp [List.getElem?_range, hi]
  simp [corrTableOf, List.getElem?_map, h1]

theorem corrValueAt_eq {files : FileSys} {period i : ℕ} {asset : String}
    (hi : i < (returnsTable files).length) :
    corrValueAt files period i asset =
      if asset ∈ CORRELATION_ASSETS
      then corrCell (colsOf files) (returnsTable files) period i asset
      else none := by
  simp only [corrValueAt, corrTableOf_getElem? hi, corrEntryAt]
  rw [lookup_map_self]
  split <;> simp

theorem length_corrTableOf (files : FileSys) (period : ℕ) :
    (corrTableOf files period).length = (returnsTable files).length := by
  simp [corrTableOf]

theorem corrValueAt_eq_none_of_lt {files : FileSys} {period i : ℕ}
    {asset : String} (hi : i < (returnsTable files).length)
    (hlt : i < period - 1) :
    corrValueAt files period i asset = none := by
  rw [corrValueAt_eq hi]
  split
  · rw [corrCell, if_neg]
    push_neg
    intro _
    omega
  · rfl

theorem corrSeries_eq_map (files : FileSys) (period : ℕ) (asset : String) :
    corrSeries files period asset =
      (List.range (returnsTable files).length).map
        (fun i => corrValueAt files period i asset) := by
  rw [corrSeries, corrTableOf, List.map_map]
  apply List.map_congr_left
  intro i hi
  simp only [Function.comp]
  rw [corrValueAt, corrTableOf_getElem? (by simpa using hi)]

/-! ### Claim theorems -/

/-- Claim C1: for a window length `W` of the configured list, a position
`i < W−1` always emits null for every asset, and a position at which an
asset has fewer than `W` non-gap return observations inside the trailing
`W`-row window emits null for that asset (after the `dropna()` the return
table has no gaps, so the second antecedent only fires for assets that are
not columns at all, which are also emitted as null). -/
theorem C1_insufficient_window_null (files : FileSys) (period : ℕ)
    (hp : period ∈ CORRELATION_PERIODS) (asset : String) (i : ℕ)
    (hi : i < (returnsTable files).length) :
    (i < period - 1 → corrValueAt files period i asset = none) ∧
    ((columnOf (colsOf files) asset
        (windowAt (returnsTable files) period i)).countP Option.isSome < period →
      corrValueAt files period i asset = none) := by
  have hp1 : 1 ≤ period := by
    simp only [CORRELATION_PERIODS, List.mem_cons, List.not_mem_nil, or_false] at hp
    omega
  constructor
  · intro hlt
    exact corrValueAt_eq_none_of_lt hi hlt
  · intro hcount
    rw [corrValueAt_eq hi]
    split
    · rw [corrCell]
      by_cases hyp : asset ∈ colsOf files ∧ period - 1 ≤ i
      · exfalso
        obtain ⟨hac, hpi⟩ := hyp
        have hwl : (windowAt (returnsTable files) period i).length = period :=
          windowAt_length _ _ _ (by omega) hi
        have hcnt :
            (columnOf (colsOf files) asset
              (windowAt (returnsTable files) period i)).countP Option.isSome
              = period := by
          rw [columnOf_countP_of_mem_returns hac
            (fun r hr => mem_of_mem_windowAt hr), hwl]
        omega
      · rw [if_neg hyp]
    · rfl

/-- Witness for C1 at the 14-week input, window 13, position 0. -/
theorem C1_insufficient_window_null_witness :
    13 ∈ CORRELATION_PERIODS ∧ 0 < (returnsTable files14).length ∧
      ((0 < 13 - 1 → corrValueAt files14 13 0 "SPY" = none) ∧
       ((columnOf (colsOf files14) "SPY"
           (windowAt (returnsTable files14) 13 0)).countP Option.isSome < 13 →
         corrValueAt files14 13 0 "SPY" = none)) :=
  ⟨by decide, by decide,
    C1_insufficient_window_null files14 13 (by decide) "SPY" 0 (by decide)⟩

theorem zipWith_pctCell_all :
    ∀ (p c : List (Option ℚ)), p.length = c.length →
      (List.zipWith pctCell p c).all Option.isSome =
        (p.all Option.isSome && c.all Option.isSome) := by
  intro p
  induction p with
  | nil =>
    intro c h
    cases c
    · rfl
    · simp at h
  | cons a p ih =>
    intro c h
    cases c with
    | nil => simp at h
    | cons b c =>
      have hrec := ih c (by simpa using h)
      cases a <;> cases b <;>
        simp [pctCell, List.all_cons, hrec, Bool.and_assoc, Bool.and_left_comm]

theorem combined_eq_nil_of_cols_nil {files : FileSys}
    (h : colsOf files = []) : combinedTable files = [] := by
  have hdfs : dfsOf files = [] := by
    cases hd : dfsOf files with
    | nil => rfl
    | cons a l => rw [colsOf, hd] at h; simp at h
  have hw : weeklyClosesOf files = [] := by rw [weeklyClosesOf, hdfs]; rfl
  rw [combinedTable, unionLabels, hw]
  simp [sortNat]

theorem filter_pctAux_eq_specReturns {n : ℕ} :
    ∀ (l : List Row) (p : Row), p.2.length = n → (∀ x ∈ l, x.2.length = n) →
      (pctAux p l).filter (fun r => r.2.all Option.isSome) =
        specReturns (p :: l) := by
  intro l
  induction l with
  | nil => intro p _ _; simp [pctAux, specReturns]
  | cons c rest ih =>
    intro p hp hl
    rw [pctAux, specReturns, List.filter_cons]
    have hzip : ((c.1, List.zipWith pctCell p.2 c.2) : Row).2.all Option.isSome =
        (p.2.all Option.isSome && c.2.all Option.isSome) :=
      zipWith_pctCell_all p.2 c.2 (by rw [hp, hl c (by simp)])
    rw [hzip, ih c (hl c (by simp)) (fun x hx => hl x (by simp [hx]))]
    by_cases hcond : (p.2.all Option.isSome && c.2.all Option.isSome) = true
    · simp [hcond]
    · simp [hcond]

/-- Counterexample to C2 as stated: with BTC present in weeks 0,7,14,21 and
SPY absent in week 14, the return table does not consist of the combined
table minus its first row — the gap weeks 14 and 21 are dropped entirely
rather than kept with a gap for SPY. -/
theorem C2_counterexample :
    ¬ ((returnsTable filesGap).map Prod.fst =
        ((combinedTable filesGap).map Prod.fst).drop 1) := by decide

/-- Claim C2 amended: the per-asset weekly return series is the
week-over-week fractional change of the combined table restricted to the
rows (beyond the first) in which every available asset has a value both in
that week and in the previous week; the first row is always removed, and a
week in which any asset has a gap in it or in the preceding week is dropped
from the return table entirely (not kept with a gap). -/
theorem C2_returns_drop_gap_rows (files : FileSys) :
    returnsTable files = specReturns (combinedTable files) := by
  rcases hC : combinedTable files with _ | ⟨r, rest⟩
  · simp [returnsTable, hC, pctTable, specReturns]
  · have hlen : ∀ x ∈ combinedTable files, x.2.length = (colsOf files).length :=
      fun x hx => combined_row_length hx
    have hcols : colsOf files ≠ [] := by
      intro hnil
      rw [combined_eq_nil_of_cols_nil hnil] at hC
      cases hC
    rw [returnsTable, hC, pctTable, List.filter_cons]
    have hr : r.2.length = (colsOf files).length := hlen r (by rw [hC]; simp)
    have hhead : ((r.1, r.2.map fun _ => (none : Option ℚ)) : Row).2.all
        Option.isSome = false := by
      cases hr2 : r.2 with
      | nil =>
        exfalso
        rw [hr2] at hr
        exact hcols (List.length_eq_zero.mp hr.symm)
      | cons u us => simp
    rw [hhead]
    simp only [Bool.false_eq_true, if_false]
    exact filter_pctAux_eq_specReturns rest r hr
      (fun x hx => hlen x (by rw [hC]; simp [hx]))

set_option maxRecDepth 8000 in
/-- Counterexample to C3 as stated: at a BTC CSV with exactly 14 weekly
closes and one matching correlation asset, the 13-week series has 13
entries (one per return row, the first close week having no return), so it
has a single non-null entry, at position 12, and no position 13 at all. -/
theorem C3_counterexample :
    ¬ ((corrSeries files14 13 "SPY").countP Option.isSome = 2 ∧
       ((corrSeries files14 13 "SPY")[13]?.getD none).isSome = true) := by
  decide

/-- Claim C3 amended: for an input yielding a 13-row return table (e.g. a
primary CSV with exactly 14 weekly closes and one matching correlation
asset) whose full-window coefficient at position 12 is defined, the 13-week
correlation series contains exactly 1 non-null entry, at 0-indexed position
12 (the last), with all earlier entries null, and the 26-week and 52-week
series are entirely null. -/
theorem C3_fourteen_week_scenario (files : FileSys)
    (h13 : (returnsTable files).length = 13)
    (hs : corrValueAt files 13 12 "SPY" ≠ none) :
    (corrSeries files 13 "SPY").countP Option.isSome = 1 ∧
    (∀ j, j < 12 → corrValueAt files 13 j "SPY" = none) ∧
    (corrSeries files 26 "SPY").all Option.isNone = true ∧
    (corrSeries files 52 "SPY").all Option.isNone = true := by
  have hnull : ∀ j, j < 12 → corrValueAt files 13 j "SPY" = none := by
    intro j hj
    exact corrValueAt_eq_none_of_lt (by omega) (by omega)
  refine ⟨?_, hnull, ?_, ?_⟩
  · rw [corrSeries_eq_map, h13]
    have h1213 : (13 : ℕ) = 12 + 1 := rfl
    rw [h1213, List.range_succ, List.map_append, List.countP_append]
    have hz : (List.countP Option.isSome
        ((List.range 12).map (fun i => corrValueAt files 13 i "SPY"))) = 0 := by
      rw [List.countP_eq_zero]
      intro a ha
      simp only [List.mem_map, List.mem_range] at ha
      obtain ⟨i, hi, rfl⟩ := ha
      rw [hnull i hi]
      simp
    rw [hz]
    simp [List.countP_cons, Option.isSome_iff_ne_none.mpr hs]
  · rw [corrSeries_eq_map, h13, List.all_eq_true]
    intro a ha
    simp only [List.mem_map, List.mem_range] at ha
    obtain ⟨i, hi, rfl⟩ := ha
    rw [corrValueAt_eq_none_of_lt (by omega) (by omega)]
    rfl
  · rw [corrSeries_eq_map, h13, List.all_eq_true]
    intro a ha
    simp only [List.mem_map, List.mem_range] at ha
    obtain ⟨i, hi, rfl⟩ := ha
    rw [corrValueAt_eq_none_of_lt (by omega) (by omega)]
    rfl

set_option maxRecDepth 8000 in
/-- Witness for the amended C3 at the concrete 14-close input. -/
theorem C3_fourteen_week_scenario_witness :
    (returnsTable files14).length = 13 ∧
    corrValueAt files14 13 12 "SPY" ≠ none ∧
    ((corrSeries files14 13 "SPY").countP Option.isSome = 1 ∧
     (∀ j, j < 12 → corrValueAt files14 13 j "SPY" = none) ∧
     (corrSeries files14 26 "SPY").all Option.isNone = true ∧
     (corrSeries files14 52 "SPY").all Option.isNone = true) :=
  ⟨by decide, by decide, C3_fourteen_week_scenario files14 (by decide) (by decide)⟩

theorem lookup_dfs_aux (files : FileSys) (n : String) :
    ∀ (names : List String), n ∉ names →
      ((names.filterMap
        (fun m => (files m).map (fun ds => (m, sortByDate ds)))).lookup n) =
        none := by
  intro names
  induction names with
  | nil => intro _; rfl
  | cons m rest ih =>
    intro hn
    rw [List.filterMap_cons]
    cases hm : files m with
    | none => exact ih (fun h => hn (by simp [h]))
    | some ds =>
      have hne : (n == m) = false := by
        simp only [beq_eq_false_iff_ne, ne_eq]
        intro h
        exact hn (by simp [h])
      simp only [Option.map_some']
      rw [List.lookup, hne]
      exact ih (fun h => hn (by simp [h]))

theorem lookup_dfs_btc (files : FileSys) :
    (dfsOf files).lookup "BTC" =
      (files "BTC").map (fun ds => sortByDate ds) := by
  rw [dfsOf]
  have hT : TICKER_NAMES = "BTC" :: ["SPY", "QQQ", "IGV", "GLD", "DXY"] := by
    rfl
  rw [hT, List.filterMap_cons]
  cases hb : files "BTC" with
  | none =>
    simp only [Option.map_none']
    exact lookup_dfs_aux files "BTC" _ (by decide)
  | some ds =>
    simp [List.lookup]

/-- Counterexample to C4 as stated: with the SPY CSV absent (only BTC
present), the correlation entries still carry a `"SPY"` key — bound to
null — rather than omitting it. -/
theorem C4_counterexample :
    ¬ (∀ e ∈ corrTableOf filesBtcOnly 13, e.2.lookup "SPY" = none) := by
  decide

/-- Claim C4 amended: for every correlation asset whose CSV is absent,
every entry of every window's correlation list carries that asset's key
explicitly bound to null (the key is present, not omitted), while the
primary asset's candles depend only on the BTC file and are unaffected by
the absence. -/
theorem C4_missing_asset_key_null (files : FileSys) (asset : String)
    (ha : asset ∈ CORRELATION_ASSETS) (habs : files asset = none)
    (period : ℕ) :
    (∀ e ∈ corrTableOf files period, e.2.lookup asset = some none) ∧
    (∀ g : FileSys, g "BTC" = files "BTC" →
      (btcWeeklyOf g).map candleJson = (btcWeeklyOf files).map candleJson) := by
  constructor
  · intro e he
    simp only [corrTableOf, List.mem_map, List.mem_range] at he
    obtain ⟨i, -, rfl⟩ := he
    simp only [corrEntryAt]
    rw [lookup_map_self, if_pos ha, corrCell, if_neg]
    intro hcon
    have : (files asset).isSome := (mem_colsOf.mp hcon.1).2
    rw [habs] at this
    cases this
  · intro g hg
    rw [btcWeeklyOf, btcWeeklyOf, lookup_dfs_btc, lookup_dfs_btc, hg]

/-- Witness for the amended C4 at the BTC-only data directory. -/
theorem C4_missing_asset_key_null_witness :
    "SPY" ∈ CORRELATION_ASSETS ∧ filesBtcOnly "SPY" = none ∧
    ((∀ e ∈ corrTableOf filesBtcOnly 13, e.2.lookup "SPY" = some none) ∧
     (∀ g : FileSys, g "BTC" = filesBtcOnly "BTC" →
        (btcWeeklyOf g).map candleJson =
          (btcWeeklyOf filesBtcOnly).map candleJson)) :=
  ⟨by decide, rfl,
    C4_missing_asset_key_null filesBtcOnly "SPY" (by decide) rfl 13⟩

/-- Claim C5: if the primary asset's CSV is missing, the aggregation stage
terminates without writing any JSON, and a pre-existing `data.json` is left
unchanged. -/
theorem C5_missing_primary_aborts (prev : Option Json) (files : FileSys)
    (h : files "BTC" = none) :
    generate_json files = none ∧ runAggregate prev files = prev := by
  have hbtc : (dfsOf files).lookup "BTC" = none := by
    rw [lookup_dfs_btc, h]
    rfl
  constructor
  · rw [generate_json, hbtc]
  · rw [runAggregate, generate_json, hbtc]

/-- Witness for C5 at the empty data directory. -/
theorem C5_missing_primary_aborts_witness :
    filesEmpty "BTC" = none ∧
    (generate_json filesEmpty = none ∧
     runAggregate (some (Json.num 1)) filesEmpty = some (Json.num 1)) :=
  ⟨rfl, C5_missing_primary_aborts (some (Json.num 1)) filesEmpty rfl⟩

/-! ### Lemmas about resampling -/

theorem getLastD_mem {α : Type} (f : α) (rest : List α) :
    rest.getLastD f ∈ f :: rest := by
  induction rest generalizing f with
  | nil => simp
  | cons x xs ih =>
    rw [List.getLastD_cons]
    exact List.mem_cons_of_mem f (ih x)

theorem sorted_le_getLastD {f : DailyBar} {rest : List DailyBar}
    (h : (f :: rest).Pairwise (fun a b => a.date ≤ b.date)) :
    ∀ x ∈ f :: rest, x.date ≤ (rest.getLastD f).date := by
  induction rest generalizing f with
  | nil =>
    intro x hx
    simp only [List.mem_singleton] at hx
    subst hx
    exact le_refl _
  | cons y ys ih =>
    intro x hx
    rw [List.getLastD_cons]
    rcases List.mem_cons.mp hx with rfl | hx2
    · have h1 : x.date ≤ y.date := List.rel_of_pairwise_cons h (by simp)
      exact le_trans h1 (ih h.of_cons y (by simp))
    · exact ih h.of_cons x hx2

theorem le_foldl_max_init {α : Type} [LinearOrder α] :
    ∀ (l : List α) (a : α), a ≤ l.foldl max a := by
  intro l
  induction l with
  | nil => intro a; exact le_refl a
  | cons y ys ih => intro a; exact le_trans (le_max_left a y) (ih (max a y))

theorem foldl_max_mem {α : Type} [LinearOrder α] :
    ∀ (l : List α) (a : α), l.foldl max a ∈ a :: l := by
  intro l
  induction l with
  | nil => intro a; simp
  | cons x xs ih =>
    intro a
    rw [List.foldl_cons]
    rcases List.mem_cons.mp (ih (max a x)) with h | h
    · rw [h]
      rcases max_choice a x with hm | hm <;> rw [hm] <;> simp
    · simp [h]

theorem le_foldl_max {α : Type} [LinearOrder α] :
    ∀ (l : List α) (a x : α), x ∈ a :: l → x ≤ l.foldl max a := by
  intro l
  induction l with
  | nil =>
    intro a x hx
    simp only [List.mem_singleton] at hx
    subst hx
    exact le_refl x
  | cons y ys ih =>
    intro a x hx
    rw [List.foldl_cons]
    rcases List.mem_cons.mp hx with rfl | hx2
    · exact le_trans (le_max_left x y) (le_foldl_max_init ys (max x y))
    · rcases List.mem_cons.mp hx2 with rfl | hx3
      · exact le_trans (le_max_right a x) (le_foldl_max_init ys (max a x))
      · exact ih (max a y) x (List.mem_cons_of_mem _ hx3)

theorem foldl_min_le_init {α : Type} [LinearOrder α] :
    ∀ (l : List α) (a : α), l.foldl min a ≤ a := by
  intro l
  induction l with
  | nil => intro a; exact le_refl a
  | cons y ys ih => intro a; exact le_trans (ih (min a y)) (min_le_left a y)

theorem foldl_min_mem {α : Type} [LinearOrder α] :
    ∀ (l : List α) (a : α), l.foldl min a ∈ a :: l := by
  intro l
  induction l with
  | nil => intro a; simp
  | cons x xs ih =>
    intro a
    rw [List.foldl_cons]
    rcases List.mem_cons.mp (ih (min a x)) with h | h
    · rw [h]
      rcases min_choice a x with hm | hm <;> rw [hm] <;> simp
    · simp [h]

theorem foldl_min_le {α : Type} [LinearOrder α] :
    ∀ (l : List α) (a x : α), x ∈ a :: l → l.foldl min a ≤ x := by
  intro l
  induction l with
  | nil =>
    intro a x hx
    simp only [List.mem_singleton] at hx
    subst hx
    exact le_refl x
  | cons y ys ih =>
    intro a x hx
    rw [List.foldl_cons]
    rcases List.mem_cons.mp hx with rfl | hx2
    · exact le_trans (foldl_min_le_init ys (min x y)) (min_le_left x y)
    · rcases List.mem_cons.mp hx2 with rfl | hx3
      · exact le_trans (foldl_min_le_init ys (min a x)) (min_le_right a x)
      · exact ih (min a y) x (List.mem_cons_of_mem _ hx3)

theorem length_filterMap_eq_countP {α β : Type} (f : α → Option β) :
    ∀ l : List α, (l.filterMap f).length = l.countP (fun a => (f a).isSome) := by
  intro l
  induction l with
  | nil => rfl
  | cons x xs ih =>
    rw [List.filterMap_cons, List.countP_cons]
    cases hf : f x <;> simp [hf, ih]

theorem aggWeek_isSome (w : ℕ) (ds : List DailyBar) :
    (aggWeek w ds).isSome = true ↔ inWeek w ds ≠ [] := by
  cases h : inWeek w ds with
  | nil => simp [aggWeek, h]
  | cons f r => simp [aggWeek, h]

theorem aggWeek_t {w : ℕ} {ds : List DailyBar} {bar : WeeklyBar}
    (h : aggWeek w ds = some bar) : bar.t = weekLabel w := by
  cases hw : inWeek w ds with
  | nil => rw [aggWeek, hw] at h; cases h
  | cons f r =>
    rw [aggWeek, hw] at h
    cases h
    rfl

theorem weekOf_le_weekOf {d e : ℕ} (h : d ≤ e) : weekOf d ≤ weekOf e :=
  Nat.div_le_div_right h

theorem week_bounds {first : DailyBar} {rest : List DailyBar}
    (hsort : (first :: rest).Pairwise (fun a b => a.date ≤ b.date))
    {d : DailyBar} (hd : d ∈ first :: rest) :
    weekOf first.date ≤ weekOf d.date ∧
      weekOf d.date ≤ weekOf ((rest.getLastD first).date) := by
  constructor
  · rcases List.mem_cons.mp hd with rfl | h2
    · exact le_refl _
    · exact weekOf_le_weekOf (List.rel_of_pairwise_cons hsort h2)
  · exact weekOf_le_weekOf (sorted_le_getLastD hsort d hd)

/-- Claim C6: Monday-anchored, left-labeled, left-closed weekly resampling
of a date-sorted daily series produces one bar per nonempty week bucket
(none for empty buckets, and as many bars as there are distinct nonempty
buckets), each with open = first day's open, high = max high, low = min
low, close = last day's close, volume = sum of volumes. -/
theorem C6_weekly_resampling (ds : List DailyBar)
    (hsort : ds.Pairwise (fun a b => a.date ≤ b.date)) :
    (resampleWeekly ds).length = ((ds.map (fun b => weekOf b.date)).dedup).length ∧
    (∀ w : ℕ, (∃ b ∈ resampleWeekly ds, b.t = weekLabel w) ↔ inWeek w ds ≠ []) ∧
    (∀ b ∈ resampleWeekly ds,
      (∃ f ∈ inWeek (weekOf b.t) ds, b.o = f.o ∧
          ∀ x ∈ inWeek (weekOf b.t) ds, f.date ≤ x.date) ∧
      (∃ g ∈ inWeek (weekOf b.t) ds, b.c = g.c ∧
          ∀ x ∈ inWeek (weekOf b.t) ds, x.date ≤ g.date) ∧
      b.hi ∈ (inWeek (weekOf b.t) ds).map DailyBar.hi ∧
      (∀ x ∈ inWeek (weekOf b.t) ds, x.hi ≤ b.hi) ∧
      b.lo ∈ (inWeek (weekOf b.t) ds).map DailyBar.lo ∧
      (∀ x ∈ inWeek (weekOf b.t) ds, b.lo ≤ x.lo) ∧
      b.vol = ((inWeek (weekOf b.t) ds).map DailyBar.vol).sum) := by
  cases ds with
  | nil =>
    refine ⟨rfl, ?_, ?_⟩
    · intro w
      simp [resampleWeekly, inWeek]
    · intro b hb
      simp [resampleWeekly] at hb
  | cons first rest =>
    have hres : resampleWeekly (first :: rest) =
        (List.range' (weekOf first.date)
          (weekOf ((rest.getLastD first).date) - weekOf first.date + 1)).filterMap
          (fun w => aggWeek w (first :: rest)) := rfl
    have hw01 : weekOf first.date ≤ weekOf ((rest.getLastD first).date) :=
      weekOf_le_weekOf (sorted_le_getLastD hsort first (by simp))
    refine ⟨?_, ?_, ?_⟩
    · rw [hres, length_filterMap_eq_countP, List.countP_eq_length_filter]
      have hnodA : ((List.range' (weekOf first.date)
          (weekOf ((rest.getLastD first).date) - weekOf first.date + 1)).filter
            (fun w => (aggWeek w (first :: rest)).isSome)).Nodup :=
        (List.nodup_range' _ _).filter _
      rw [← List.toFinset_card_of_nodup hnodA,
          ← List.toFinset_card_of_nodup (List.nodup_dedup _)]
      congr 1
      ext w
      simp only [List.mem_toFinset, List.mem_filter, List.mem_range'_1,
        List.mem_dedup, List.mem_map]
      constructor
      · rintro ⟨⟨h0, h1⟩, hp⟩
        have hne := (aggWeek_isSome w (first :: rest)).mp hp
        obtain ⟨d, hd⟩ := List.exists_mem_of_ne_nil _ hne
        rw [inWeek, List.mem_filter] at hd
        exact ⟨d, hd.1, by simpa using hd.2⟩
      · rintro ⟨d, hd, hw⟩
        have hb := week_bounds hsort hd
        refine ⟨⟨by omega, by omega⟩, ?_⟩
        rw [aggWeek_isSome]
        intro hnil
        have hmem : d ∈ inWeek w (first :: rest) := by
          rw [inWeek, List.mem_filter]
          exact ⟨hd, by simp [hw]⟩
        rw [hnil] at hmem
        cases hmem
    · intro w
      constructor
      · rintro ⟨b, hb, hbt⟩
        rw [hres] at hb
        obtain ⟨w', hw', hagg⟩ := List.mem_filterMap.mp hb
        have ht := aggWeek_t hagg
        have hww : w' = w := by
          rw [ht] at hbt
          simp only [weekLabel] at hbt
          omega
        subst hww
        exact (aggWeek_isSome _ _).mp (by simp [hagg])
      · intro hne
        obtain ⟨d, hd⟩ := List.exists_mem_of_ne_nil _ hne
        have hdm : d ∈ first :: rest ∧ weekOf d.date = w := by
          rw [inWeek, List.mem_filter] at hd
          exact ⟨hd.1, by simpa using hd.2⟩
        have hb := week_bounds hsort hdm.1
        have hSome : (aggWeek w (first :: rest)).isSome = true :=
          (aggWeek_isSome _ _).mpr hne
        obtain ⟨b, hbag⟩ := Option.isSome_iff_exists.mp hSome
        refine ⟨b, ?_, aggWeek_t hbag⟩
        rw [hres]
        apply List.mem_filterMap.mpr
        refine ⟨w, ?_, hbag⟩
        rw [List.mem_range'_1]
        have hw2 := hdm.2
        exact ⟨by omega, by omega⟩
    · intro b hb
      rw [hres] at hb
      obtain ⟨w, hwmem, hagg⟩ := List.mem_filterMap.mp hb
      have ht := aggWeek_t hagg
      have htw : weekOf b.t = w := by
        rw [ht]
        simp only [weekLabel, weekOf]
        omega
      rw [htw]
      rcases hIW : inWeek w (first :: rest) with _ | ⟨f, r⟩
      · rw [aggWeek, hIW] at hagg
        cases hagg
      · rw [aggWeek, hIW] at hagg
        injection hagg with hb2
        subst hb2
        have hsortW : (f :: r).Pairwise (fun a b => a.date ≤ b.date) := by
          rw [← hIW]
          exact hsort.filter _
        refine ⟨⟨f, by simp, rfl, ?_⟩,
          ⟨r.getLastD f, getLastD_mem f r, rfl, sorted_le_getLastD hsortW⟩,
          ?_, ?_, ?_, ?_, ?_⟩
        · intro x hx
          rcases List.mem_cons.mp hx with rfl | hx2
          · exact le_refl _
          · exact List.rel_of_pairwise_cons hsortW hx2
        · show r.foldl (fun a b => max a b.hi) f.hi ∈ (f :: r).map DailyBar.hi
          rw [← List.foldl_map DailyBar.hi max r f.hi, List.map_cons]
          exact foldl_max_mem _ _
        · intro x hx
          show x.hi ≤ r.foldl (fun a b => max a b.hi) f.hi
          rw [← List.foldl_map DailyBar.hi max r f.hi]
          apply le_foldl_max
          rcases List.mem_cons.mp hx with rfl | hx2
          · simp
          · exact List.mem_cons_of_mem _ (List.mem_map_of_mem DailyBar.hi hx2)
        · show r.foldl (fun a b => min a b.lo) f.lo ∈ (f :: r).map DailyBar.lo
          rw [← List.foldl_map DailyBar.lo min r f.lo, List.map_cons]
          exact foldl_min_mem _ _
        · intro x hx
          show r.foldl (fun a b => min a b.lo) f.lo ≤ x.lo
          rw [← List.foldl_map DailyBar.lo min r f.lo]
          apply foldl_min_le
          rcases List.mem_cons.mp hx with rfl | hx2
          · simp
          · exact List.mem_cons_of_mem _ (List.mem_map_of_mem DailyBar.lo hx2)
        · show (f :: r).foldl (fun a b => a + b.vol) 0 =
            ((f :: r).map DailyBar.vol).sum
          rw [List.sum_eq_foldl, List.foldl_map]

/-- Witness for C6 at a three-day series spanning weeks 0 and 2. -/
theorem C6_weekly_resampling_witness :
    ds3.Pairwise (fun a b => a.date ≤ b.date) ∧
    ((resampleWeekly ds3).length = ((ds3.map (fun b => weekOf b.date)).dedup).length ∧
     (∀ w : ℕ, (∃ b ∈ resampleWeekly ds3, b.t = weekLabel w) ↔ inWeek w ds3 ≠ []) ∧
     (∀ b ∈ resampleWeekly ds3,
       (∃ f ∈ inWeek (weekOf b.t) ds3, b.o = f.o ∧
           ∀ x ∈ inWeek (weekOf b.t) ds3, f.date ≤ x.date) ∧
       (∃ g ∈ inWeek (weekOf b.t) ds3, b.c = g.c ∧
           ∀ x ∈ inWeek (weekOf b.t) ds3, x.date ≤ g.date) ∧
       b.hi ∈ (inWeek (weekOf b.t) ds3).map DailyBar.hi ∧
       (∀ x ∈ inWeek (weekOf b.t) ds3, x.hi ≤ b.hi) ∧
       b.lo ∈ (inWeek (weekOf b.t) ds3).map DailyBar.lo ∧
       (∀ x ∈ inWeek (weekOf b.t) ds3, b.lo ≤ x.lo) ∧
       b.vol = ((inWeek (weekOf b.t) ds3).map DailyBar.vol).sum)) :=
  ⟨by decide, C6_weekly_resampling ds3 (by decide)⟩

/-! ### Lemmas about the output document -/

theorem generate_json_cases {files : FileSys} {out : Json}
    (h : generate_json files = some out) :
    ∃ b0 rest, btcWeeklyOf files = b0 :: rest ∧
      out = Json.obj
        [ ("lastUpdated",
            Json.str (dateStr (listMax ((b0 :: rest).map WeeklyBar.t))))
        , ("btcLatest", jsonOfOpt (clean (some ((rest.getLastD b0).c))))
        , ("candles", Json.arr ((b0 :: rest).map candleJson))
        , ("correlations", correlationsJson files) ] := by
  rcases hbtc : (dfsOf files).lookup "BTC" with _ | btcds
  · rw [generate_json, hbtc] at h
    cases h
  · rw [generate_json, hbtc] at h
    simp only at h
    rcases hrs : resampleWeekly btcds with _ | ⟨b0, rest⟩
    · rw [hrs] at h
      cases h
    · rw [hrs] at h
      injection h with h2
      refine ⟨b0, rest, ?_, h2.symm⟩
      rw [btcWeeklyOf, hbtc]
      exact hrs

theorem mem_corrTableOf {files : FileSys} {period : ℕ}
    {e : ℕ × List (String × Option ℚ)} (he : e ∈ corrTableOf files period) :
    ∃ i, e = corrEntryAt (colsOf files) (returnsTable files) period i
      (labelAt (returnsTable files) i) := by
  simp only [corrTableOf, List.mem_map, List.mem_range] at he
  obtain ⟨i, -, rfl⟩ := he
  exact ⟨i, rfl⟩

theorem objVals_candleJson (b : WeeklyBar) :
    objVals "t" (candleJson b) =
      [ jsonOfOpt (clean (some b.o)), jsonOfOpt (clean (some b.hi))
      , jsonOfOpt (clean (some b.lo)), jsonOfOpt (clean (some b.c)) ] := rfl

theorem objVals_corrEntryAt (cols : List String) (rows : List Row)
    (period i t : ℕ) :
    objVals "t" (corrEntryJson (corrEntryAt cols rows period i t)) =
      CORRELATION_ASSETS.map
        (fun a => jsonOfOpt (corrCell cols rows period i a)) := rfl

theorem topKeys_corrEntryAt (cols : List String) (rows : List Row)
    (period i t : ℕ) :
    topKeys (corrEntryJson (corrEntryAt cols rows period i t)) =
      "t" :: CORRELATION_ASSETS := rfl

theorem roundedJ_clean (v : Option ℚ) :
    roundedJ 2 (jsonOfOpt (clean v)) = true := by
  cases v with
  | none => rfl
  | some q =>
    simp only [clean, Option.map_some', jsonOfOpt, roundedJ]
    exact pyRound_isRounded 2 q

theorem roundedJ_clean_corr (v : Option ℚ) :
    roundedJ 4 (jsonOfOpt (clean_corr v)) = true := by
  cases v with
  | none => rfl
  | some q =>
    simp only [clean_corr, Option.map_some', jsonOfOpt, roundedJ]
    exact pyRound_isRounded 4 q

theorem roundedJ_corrCell (cols : List String) (rows : List Row)
    (period i : ℕ) (a : String) :
    roundedJ 4 (jsonOfOpt (corrCell cols rows period i a)) = true := by
  rw [corrCell]
  split
  · dsimp only
    split
    · exact roundedJ_clean_corr _
    · rfl
  · rfl

/-- Claim C7: every price in the output document is rounded to exactly 2
decimal places and every correlation coefficient to exactly 4; a NaN/None
at serialization time becomes JSON null — never the string "NaN" (the
admissible values are null or a rounded number) and never an omitted key
(every correlation entry carries the `t` key and all five asset keys). -/
theorem C7_rounding_and_null (files : FileSys) (out : Json)
    (h : generate_json files = some out) :
    (candleNums out).all (roundedJ 2) = true ∧
    roundedJ 2 ((out.getKV "btcLatest").getD Json.null) = true ∧
    (corrNums out).all (roundedJ 4) = true ∧
    (corrKeyLists out).all (fun ks => ks == "t" :: CORRELATION_ASSETS) = true ∧
    jsonOfOpt (clean none) = Json.null ∧
    jsonOfOpt (clean_corr none) = Json.null := by
  obtain ⟨b0, rest, hbw, hout⟩ := generate_json_cases h
  subst hout
  refine ⟨?_, ?_, ?_, ?_, rfl, rfl⟩
  · rw [List.all_eq_true]
    intro j hj
    have hcand : candleNums (Json.obj
        [ ("lastUpdated",
            Json.str (dateStr (listMax ((b0 :: rest).map WeeklyBar.t))))
        , ("btcLatest", jsonOfOpt (clean (some ((rest.getLastD b0).c))))
        , ("candles", Json.arr ((b0 :: rest).map candleJson))
        , ("correlations", correlationsJson files) ]) =
        ((b0 :: rest).map candleJson).flatMap (objVals "t") := rfl
    rw [hcand] at hj
    obtain ⟨cj, hcj, hjj⟩ := List.mem_flatMap.mp hj
    obtain ⟨b, -, rfl⟩ := List.mem_map.mp hcj
    rw [objVals_candleJson] at hjj
    simp only [List.mem_cons, List.not_mem_nil, or_false] at hjj
    rcases hjj with rfl | rfl | rfl | rfl
    all_goals exact roundedJ_clean _
  · show roundedJ 2 (jsonOfOpt (clean (some ((rest.getLastD b0).c)))) = true
    exact roundedJ_clean _
  · rw [List.all_eq_true]
    intro j hj
    have hc : corrNums (Json.obj
        [ ("lastUpdated",
            Json.str (dateStr (listMax ((b0 :: rest).map WeeklyBar.t))))
        , ("btcLatest", jsonOfOpt (clean (some ((rest.getLastD b0).c))))
        , ("candles", Json.arr ((b0 :: rest).map candleJson))
        , ("correlations", correlationsJson files) ]) =
        (CORRELATION_PERIODS.map (fun p =>
          (toString p, Json.arr ((corrTableOf files p).map corrEntryJson)))).flatMap
          (fun w => match w.2 with
            | Json.arr xs => xs.flatMap (objVals "t")
            | _ => []) := rfl
    rw [hc] at hj
    obtain ⟨wp, hwp, hjw⟩ := List.mem_flatMap.mp hj
    obtain ⟨p, -, rfl⟩ := List.mem_map.mp hwp
    simp only at hjw
    obtain ⟨ej, hej, hje⟩ := List.mem_flatMap.mp hjw
    obtain ⟨e, hemem, rfl⟩ := List.mem_map.mp hej
    obtain ⟨i, rfl⟩ := mem_corrTableOf hemem
    rw [objVals_corrEntryAt] at hje
    obtain ⟨a, -, rfl⟩ := List.mem_map.mp hje
    exact roundedJ_corrCell _ _ _ _ _
  · rw [List.all_eq_true]
    intro ks hks
    have hc : corrKeyLists (Json.obj
        [ ("lastUpdated",
            Json.str (dateStr (listMax ((b0 :: rest).map WeeklyBar.t))))
        , ("btcLatest", jsonOfOpt (clean (some ((rest.getLastD b0).c))))
        , ("candles", Json.arr ((b0 :: rest).map candleJson))
        , ("correlations", correlationsJson files) ]) =
        (CORRELATION_PERIODS.map (fun p =>
          (toString p, Json.arr ((corrTableOf files p).map corrEntryJson)))).flatMap
          (fun w => match w.2 with
            | Json.arr xs => xs.map topKeys
            | _ => []) := rfl
    rw [hc] at hks
    obtain ⟨wp, hwp, hkw⟩ := List.mem_flatMap.mp hks
    obtain ⟨p, -, rfl⟩ := List.mem_map.mp hwp
    simp only at hkw
    obtain ⟨ej, hej, rfl⟩ := List.mem_map.mp hkw
    obtain ⟨e, hemem, rfl⟩ := List.mem_map.mp hej
    obtain ⟨i, rfl⟩ := mem_corrTableOf hemem
    rw [topKeys_corrEntryAt]
    simp

/-- Witness for C7 at the BTC-only data directory. -/
theorem C7_rounding_and_null_witness :
    generate_json filesBtcOnly =
      some ((generate_json filesBtcOnly).getD Json.null) ∧
    ((candleNums ((generate_json filesBtcOnly).getD Json.null)).all
        (roundedJ 2) = true ∧
     roundedJ 2 ((((generate_json filesBtcOnly).getD Json.null).getKV
        "btcLatest").getD Json.null) = true ∧
     (corrNums ((generate_json filesBtcOnly).getD Json.null)).all
        (roundedJ 4) = true ∧
     (corrKeyLists ((generate_json filesBtcOnly).getD Json.null)).all
        (fun ks => ks == "t" :: CORRELATION_ASSETS) = true ∧
     jsonOfOpt (clean none) = Json.null ∧
     jsonOfOpt (clean_corr none) = Json.null) :=
  ⟨rfl, C7_rounding_and_null filesBtcOnly _ rfl⟩

/-- Claim C9: the serialized output document has exactly the four top-level
keys `lastUpdated`, `btcLatest`, `candles`, `correlations`; in particular
no `prices` key, so the weekly close overlay built at lines 144-152
(`pricesOverlay`) never reaches the written JSON. -/
theorem C9_top_level_keys (files : FileSys) (out : Json)
    (h : generate_json files = some out) :
    topKeys out = ["lastUpdated", "btcLatest", "candles", "correlations"] ∧
    (out.getKV "prices").isNone = true := by
  obtain ⟨b0, rest, hbw, hout⟩ := generate_json_cases h
  subst hout
  exact ⟨rfl, rfl⟩

/-- Witness for C9 at the BTC-only data directory. -/
theorem C9_top_level_keys_witness :
    generate_json filesBtcOnly =
      some ((generate_json filesBtcOnly).getD Json.null) ∧
    (topKeys ((generate_json filesBtcOnly).getD Json.null) =
        ["lastUpdated", "btcLatest", "candles", "correlations"] ∧
     (((generate_json filesBtcOnly).getD Json.null).getKV "prices").isNone =
        true) :=
  ⟨rfl, C9_top_level_keys filesBtcOnly _ rfl⟩

/-! ### Lemmas about the fetch stage -/

theorem mem_download_data {fetch : String → FetchResult}
    {x : String × List DailyBar} (h : x ∈ download_data fetch) :
    ∃ p ∈ TICKERS, ∃ rows, fetch p.2 = FetchResult.ok rows ∧ rows ≠ [] ∧
      x = (p.1, toCsvRows rows) := by
  rw [download_data] at h
  obtain ⟨p, hp, hfx⟩ := List.mem_filterMap.mp h
  rcases hf : fetch p.2 with rows | _
  · rw [hf] at hfx
    cases rows with
    | nil => simp at hfx
    | cons a rr =>
      simp only [List.isEmpty_cons, Bool.false_eq_true, if_false,
        Option.some.injEq] at hfx
      exact ⟨p, hp, a :: rr, hf, by simp, hfx.symm⟩
  · rw [hf] at hfx
    cases hfx

theorem tickers_functional {n t1 t2 : String}
    (h1 : (n, t1) ∈ TICKERS) (h2 : (n, t2) ∈ TICKERS) : t1 = t2 := by
  simp only [TICKERS, List.mem_cons, List.not_mem_nil, or_false,
    Prod.mk.injEq] at h1 h2
  rcases h1 with ⟨rfl, rfl⟩ | ⟨rfl, rfl⟩ | ⟨rfl, rfl⟩ | ⟨rfl, rfl⟩ |
    ⟨rfl, rfl⟩ | ⟨rfl, rfl⟩ <;> simp_all

/-- Claim C8: in the fetch stage every symbol is handled independently: a
symbol whose download succeeds with a nonempty frame is written no matter
how the other symbols fare, an empty frame or an exception only causes that
symbol to be skipped, and a run in which some CSVs are written and others
are not is a reachable terminal state (e.g. only BTC and GLD succeeding). -/
theorem C8_fetch_isolation :
    (∀ (fetch : String → FetchResult) (name ticker : String),
        (name, ticker) ∈ TICKERS →
        ((∀ rows, fetch ticker = FetchResult.ok rows → rows ≠ [] →
            (name, toCsvRows rows) ∈ download_data fetch) ∧
         ((fetch ticker = FetchResult.failed ∨ fetch ticker = FetchResult.ok []) →
            name ∉ (download_data fetch).map Prod.fst))) ∧
    (download_data fetchPartial).map Prod.fst = ["BTC", "GLD"] := by
  constructor
  · intro fetch name ticker hmem
    constructor
    · intro rows hok hne
      rw [download_data]
      apply List.mem_filterMap.mpr
      refine ⟨(name, ticker), hmem, ?_⟩
      rw [hok]
      rcases rows with _ | ⟨a, rr⟩
      · exact absurd rfl hne
      · simp only [List.isEmpty_cons, Bool.false_eq_true, if_false]
    · intro hfail hin
      obtain ⟨x, hx, hx1⟩ := List.mem_map.mp hin
      obtain ⟨p, hp, rows, hfr, hne, hxp⟩ := mem_download_data hx
      have hp1 : p.1 = name := by rw [hxp] at hx1; exact hx1
      have hmem2 : (name, p.2) ∈ TICKERS := by
        have : p = (p.1, p.2) := rfl
        rw [this, hp1] at hp
        exact hp
      have hpt : p.2 = ticker := tickers_functional hmem2 hmem
      rw [hpt] at hfr
      rcases hfail with hf | hf
      · rw [hf] at hfr
        cases hfr
      · rw [hf] at hfr
        injection hfr with h2
        exact hne h2.symm
  · decide

/-- Witness for C8: GLD's successful fetch is written even though SPY, QQQ,
IGV and DXY all fail in `fetchPartial`. -/
theorem C8_fetch_isolation_witness :
    ("GLD", "GLD") ∈ TICKERS ∧
    ((∀ rows, fetchPartial "GLD" = FetchResult.ok rows → rows ≠ [] →
        ("GLD", toCsvRows rows) ∈ download_data fetchPartial) ∧
     ((fetchPartial "GLD" = FetchResult.failed ∨
        fetchPartial "GLD" = FetchResult.ok []) →
        "GLD" ∉ (download_data fetchPartial).map Prod.fst)) :=
  ⟨by decide, (C8_fetch_isolation.1 fetchPartial "GLD" "GLD" (by decide))⟩

/-! ### Lemmas for the last-candle invariants -/

theorem insertByDate_ne_nil (b : DailyBar) (l : List DailyBar) :
    insertByDate b l ≠ [] := by
  cases l with
  | nil => simp [insertByDate]
  | cons x xs =>
    rw [insertByDate]
    split <;> simp

theorem sortByDate_ne_nil {ds : List DailyBar} (h : ds ≠ []) :
    sortByDate ds ≠ [] := by
  cases ds with
  | nil => exact absurd rfl h
  | cons d rest =>
    rw [sortByDate, List.foldr_cons]
    exact insertByDate_ne_nil d _

theorem resampleWeekly_ne_nil {ds : List DailyBar} (h : ds ≠ []) :
    resampleWeekly ds ≠ [] := by
  cases ds with
  | nil => exact absurd rfl h
  | cons first rest =>
    have hf : first ∈ inWeek (weekOf first.date) (first :: rest) := by
      rw [inWeek, List.mem_filter]
      exact ⟨by simp, by simp⟩
    have hSome : (aggWeek (weekOf first.date) (first :: rest)).isSome = true := by
      rw [aggWeek_isSome]
      intro hnil
      rw [hnil] at hf
      cases hf
    obtain ⟨b, hbag⟩ := Option.isSome_iff_exists.mp hSome
    intro hnil
    have hbmem : b ∈ resampleWeekly (first :: rest) := by
      show b ∈ (List.range' (weekOf first.date)
        (weekOf ((rest.getLastD first).date) - weekOf first.date + 1)).filterMap
          (fun w => aggWeek w (first :: rest))
      apply List.mem_filterMap.mpr
      refine ⟨weekOf first.date, ?_, hbag⟩
      rw [List.mem_range'_1]
      omega
    rw [hnil] at hbmem
    cases hbmem

theorem pairwise_filterMap_of_pairwise {α β : Type} {R : α → α → Prop}
    {S : β → β → Prop} (f : α → Option β)
    (hf : ∀ a b, R a b → ∀ c, f a = some c → ∀ d, f b = some d → S c d) :
    ∀ {l : List α}, l.Pairwise R → (l.filterMap f).Pairwise S := by
  intro l
  induction l with
  | nil => intro _; simp
  | cons x xs ih =>
    intro h
    rw [List.filterMap_cons]
    cases hx : f x with
    | none => exact ih h.of_cons
    | some c =>
      apply List.Pairwise.cons
      · intro d hd
        obtain ⟨b, hb, hfb⟩ := List.mem_filterMap.mp hd
        exact hf x b (List.rel_of_pairwise_cons h hb) c hx d hfb
      · exact ih h.of_cons

theorem resample_t_pairwise (ds : List DailyBar) :
    ((resampleWeekly ds).map WeeklyBar.t).Pairwise (· < ·) := by
  cases ds with
  | nil => simp [resampleWeekly]
  | cons first rest =>
    rw [List.pairwise_map]
    show ((List.range' (weekOf first.date)
      (weekOf ((rest.getLastD first).date) - weekOf first.date + 1)).filterMap
        (fun w => aggWeek w (first :: rest))).Pairwise (fun a b => a.t < b.t)
    apply pairwise_filterMap_of_pairwise _ ?_ (List.pairwise_lt_range' _ _)
    intro a b hab c hc d hd
    rw [aggWeek_t hc, aggWeek_t hd, weekLabel, weekLabel]
    omega

theorem pairwise_le_getLast {l : List ℕ} (h : l.Pairwise (· ≤ ·)) {x : ℕ}
    (hx : l.getLast? = some x) : ∀ y ∈ l, y ≤ x := by
  induction l with
  | nil => intro y hy; cases hy
  | cons a as ih =>
    intro y hy
    cases as with
    | nil =>
      simp only [List.getLast?_singleton, Option.some.injEq] at hx
      rcases List.mem_singleton.mp hy with rfl
      omega
    | cons b bs =>
      rw [List.getLast?_cons_cons] at hx
      rcases List.mem_cons.mp hy with rfl | hy2
      · have hbx : b ≤ x := ih h.of_cons hx b (by simp)
        exact le_trans (List.rel_of_pairwise_cons h (by simp)) hbx
      · exact ih h.of_cons hx y hy2

theorem listMax_eq_getLast {l : List ℕ} (h : l.Pairwise (· ≤ ·)) {x : ℕ}
    (hx : l.getLast? = some x) : listMax l = x := by
  have hub : ∀ y ∈ l, y ≤ x := pairwise_le_getLast h hx
  have hxl : x ∈ l := List.mem_of_getLast?_eq_some hx
  have h1 : x ≤ listMax l := le_foldl_max l 0 x (List.mem_cons_of_mem 0 hxl)
  have h2 : listMax l ≤ x := by
    rcases List.mem_cons.mp (foldl_max_mem l 0) with h0 | hm
    · rw [listMax, h0]
      omega
    · exact hub _ hm
  omega

/-- Claim C10: for a non-empty primary daily series the output's
`lastUpdated` equals the `t` of the last candle and `btcLatest` equals the
`c` of that same last candle, both taken from the final weekly bar, and the
candles are in strictly ascending date order. -/
theorem C10_last_candle_invariants (files : FileSys) (ds : List DailyBar)
    (hds : files "BTC" = some ds) (hne : ds ≠ []) :
    ∃ out lastBar,
      generate_json files = some out ∧
      (btcWeeklyOf files).getLast? = some lastBar ∧
      out.getKV "lastUpdated" = some (Json.str (dateStr lastBar.t)) ∧
      out.getKV "btcLatest" = some (jsonOfOpt (clean (some lastBar.c))) ∧
      out.getKV "candles" =
        some (Json.arr ((btcWeeklyOf files).map candleJson)) ∧
      ((btcWeeklyOf files).map candleJson).getLast? =
        some (candleJson lastBar) ∧
      (candleJson lastBar).getKV "t" = some (Json.str (dateStr lastBar.t)) ∧
      (candleJson lastBar).getKV "c" =
        some (jsonOfOpt (clean (some lastBar.c))) ∧
      ((btcWeeklyOf files).map WeeklyBar.t).Pairwise (· < ·) := by
  have hlook : (dfsOf files).lookup "BTC" = some (sortByDate ds) := by
    rw [lookup_dfs_btc, hds]
    rfl
  have hbw : btcWeeklyOf files = resampleWeekly (sortByDate ds) := by
    rw [btcWeeklyOf, hlook]
  rcases hrs : resampleWeekly (sortByDate ds) with _ | ⟨b0, rest⟩
  · exact absurd hrs (resampleWeekly_ne_nil (sortByDate_ne_nil hne))
  · have hout : generate_json files = some (Json.obj
        [ ("lastUpdated",
            Json.str (dateStr (listMax ((b0 :: rest).map WeeklyBar.t))))
        , ("btcLatest", jsonOfOpt (clean (some ((rest.getLastD b0).c))))
        , ("candles", Json.arr ((b0 :: rest).map candleJson))
        , ("correlations", correlationsJson files) ]) := by
      rw [generate_json, hlook]
      simp only
      rw [hrs]
    have hpair : ((b0 :: rest).map WeeklyBar.t).Pairwise (· < ·) := by
      have := resample_t_pairwise (sortByDate ds)
      rw [hrs] at this
      exact this
    have hlast : (b0 :: rest).getLast? = some (rest.getLastD b0) := by
      rw [List.getLast?_cons, List.getLastD_eq_getLast?]
    have hmax : listMax ((b0 :: rest).map WeeklyBar.t) = (rest.getLastD b0).t := by
      apply listMax_eq_getLast (hpair.imp (fun h => Nat.le_of_lt h))
      rw [List.getLast?_map, hlast]
      rfl
    refine ⟨_, rest.getLastD b0, hout, ?_, ?_, rfl, ?_, ?_, rfl, rfl, ?_⟩
    · rw [hbw, hrs]
      exact hlast
    · show some (Json.str (dateStr (listMax ((b0 :: rest).map WeeklyBar.t)))) =
        some (Json.str (dateStr (rest.getLastD b0).t))
      rw [hmax]
    · rw [hbw, hrs]
      rfl
    · rw [hbw, hrs, List.getLast?_map, hlast]
      rfl
    · rw [hbw, hrs]
      exact hpair

/-- Witness for C10 at the BTC-only data directory. -/
theorem C10_last_candle_invariants_witness :
    filesBtcOnly "BTC" = some [bar 0 1, bar 7 2] ∧
    ([bar 0 1, bar 7 2] : List DailyBar) ≠ [] ∧
    (∃ out lastBar,
      generate_json filesBtcOnly = some out ∧
      (btcWeeklyOf filesBtcOnly).getLast? = some lastBar ∧
      out.getKV "lastUpdated" = some (Json.str (dateStr lastBar.t)) ∧
      out.getKV "btcLatest" = some (jsonOfOpt (clean (some lastBar.c))) ∧
      out.getKV "candles" =
        some (Json.arr ((btcWeeklyOf filesBtcOnly).map candleJson)) ∧
      ((btcWeeklyOf filesBtcOnly).map candleJson).getLast? =
        some (candleJson lastBar) ∧
      (candleJson lastBar).getKV "t" = some (Json.str (dateStr lastBar.t)) ∧
      (candleJson lastBar).getKV "c" =
        some (jsonOfOpt (clean (some lastBar.c))) ∧
      ((btcWeeklyOf filesBtcOnly).map WeeklyBar.t).Pairwise (· < ·)) :=
  ⟨rfl, by decide,
    C10_last_candle_invariants filesBtcOnly [bar 0 1, bar 7 2] rfl (by decide)⟩

end BtcCorr
